import Mathlib

/-!
Verification of the `rusqlite-from-row` row-to-struct mapping generator.

The repository has two source files:
* `src/lib.rs` — the `FromRow` trait (decode + `is_all_null` null probe) and the
  blanket `impl FromRow for Option<T>`.
* `rusqlite-from-row-derive/src/lib.rs` — the derive macro that, given a struct
  whose fields carry `#[from_row(...)]` directives, generates the two
  operations `try_from_row_prefixed` and `is_all_null`.

This file embeds the system at two levels, both translated from the source:

* A *syntactic* level mirroring the derive macro's data: `FromRowAttrs`
  (directive variants), `FromRowAttrs.parse` (directive validation,
  lib.rs 349-461), `FromRowField.targetTy` / `columnName` /
  `addPredicates` (lib.rs 133-211).
* A *semantic* level giving the runtime meaning of the *generated* code:
  `decodeFields` mirrors the body of the generated `try_from_row_prefixed`
  (one arm per directive, lib.rs 248-322 composed by 89-107), and
  `isAllNullFields` mirrors the generated `is_all_null`
  (lib.rs 213-245 composed by the `&&` chain at lib.rs 104).

The external collaborators (rusqlite's `Row::get_ref`, `Row::get`,
`FromSql::column_result`, `Default::default`) are modelled per §6 of the
spec: a row is a name-addressable list of SQL values; `getRef` returns the
value of the first column with the given name or a missing-column error;
`columnResult` decodes a value for a target type, failing on SQL NULL when
the target is non-nullable.  A "prim" type (a `FromSql` target) is modelled
by its nullability together with its `Default::default()` value; a struct
type (a `FromRow` target, necessarily produced by this same derive) is
modelled by its field list.
-/

/-- An SQL value as seen through rusqlite's `ValueRef`: the null sentinel,
an integer, or a text value (other variants add nothing to the claims). -/
inductive SqlValue : Type where
  | null : SqlValue
  | integer (i : Int) : SqlValue
  | text (s : String) : SqlValue
deriving DecidableEq

/-- Decode-time failure kinds, named as in §7 of the spec.  They model the
`rusqlite::Error` values surfaced by the generated code: `missingColumn`
is `InvalidColumnName` (from `Row::get_ref`/`Row::get` on an absent
column), `nullOnNonNullable` is `InvalidColumnType` from decoding SQL NULL
at a non-nullable target, `typeMismatch` is any other `InvalidColumnType`,
and `conversionFailed` is the error of a user `TryFrom` conversion. -/
inductive MappingError : Type where
  | missingColumn (name : String) : MappingError
  | typeMismatch (name : String) : MappingError
  | nullOnNonNullable (name : String) : MappingError
  | conversionFailed (name : String) : MappingError
deriving DecidableEq

/-- A row: an ordered, name-addressable list of column values (glossary
entry "Row" in the spec). -/
abbrev Row : Type := List (String × SqlValue)

/-- `rusqlite::Row::get_ref` on a column name: the value of the first
column with that name, or `InvalidColumnName` when absent. -/
def getRef : Row → String → Except MappingError SqlValue
  | [], c => .error (.missingColumn c)
  | (n, v) :: rest, c => if n = c then .ok v else getRef rest c

/-- Replace the value of every column named `c` by `v` ("flipping" a
column, used to state the strict-conjunction property of the probe). -/
def setCol : Row → String → SqlValue → Row
  | [], _, _ => []
  | (n, w) :: rest, c, v =>
      if n = c then (n, v) :: setCol rest c v else (n, w) :: setCol rest c v

/-- Remove every column named `c` from the row. -/
def removeCol : Row → String → Row
  | [], _ => []
  | (n, w) :: rest, c =>
      if n = c then removeCol rest c else (n, w) :: removeCol rest c

/-- A prefix directive on a `flatten` field, lib.rs 344-347: an explicit
string (`#[from_row(flatten, prefix = "...")]`) or derived from the field
name (`#[from_row(flatten, prefix)]`). -/
inductive PfxDir : Type where
  | value (s : String) : PfxDir
  | field : PfxDir
deriving DecidableEq

/-- The prefix handed to a nested decoder/probe, mirroring the `prefix`
match in `generate_try_from_row` (lib.rs 257-266) and
`generate_is_all_null` (lib.rs 218-227): an explicit directive yields
`Some(prefix.unwrap_or("") + s)`, a field-derived directive yields
`Some(prefix.unwrap_or("") + ident + "_")`, and no directive passes the
caller's prefix through unchanged. -/
def childPfx (ident : String) (d : Option PfxDir) (pfx : Option String) : Option String :=
  match d with
  | some (.value s) => some (pfx.getD "" ++ s)
  | some .field => some (pfx.getD "" ++ ident ++ "_")
  | none => pfx

/-- `FromRowField::column_name` (lib.rs 149-156): the rename value when a
rename directive is present, else the field identifier. -/
def columnName (rename : Option String) (ident : String) : String :=
  match rename with
  | some name => name
  | none => ident

/-- The fully-qualified lookup key used by the generated code for a Plain
field: `prefix.unwrap_or("").to_string() + column_name` (lib.rs 237 and
lib.rs 284). -/
def resolvedKey (pfx : Option String) (rename : Option String) (ident : String) : String :=
  pfx.getD "" ++ columnName rename ident

/-- Semantic content of a `FromSql` target type: whether it decodes SQL
NULL (e.g. `Option<i64>`), and its `Default::default()` value (used only
under the `default` directive). -/
structure PrimSem : Type where
  nullable : Bool
  dfltVal : SqlValue
deriving DecidableEq

/-- `FromSql::column_result` for a target type `t` at column `c`: SQL NULL
decodes to NULL when `t` is nullable and fails with `InvalidColumnType`
otherwise; any non-null value decodes to itself. -/
def columnResult (t : PrimSem) (c : String) (v : SqlValue) : Except MappingError SqlValue :=
  match v with
  | .null => if t.nullable then .ok .null else .error (.nullOnNonNullable c)
  | .integer i => .ok (.integer i)
  | .text s => .ok (.text s)

/-- `rusqlite::Row::get::<&str, T>`: `get_ref` followed by
`FromSql::column_result`. -/
def rowGet (t : PrimSem) (c : String) (row : Row) : Except MappingError SqlValue :=
  match getRef row c with
  | .error e => .error e
  | .ok v => columnResult t c v

/-- A conversion directive together with the semantic content of its
intermediate type (`Convert`, lib.rs 338-342): `from = "R"` and
`from_fn = "f"` are infallible value maps applied after decoding the
intermediate, `try_from = "R"` is fallible.  For `from_fn` the
intermediate `PrimSem` is the inferred `_` target of lib.rs 288. -/
inductive SemConvert : Type where
  | cFrom (inter : PrimSem) (f : SqlValue → SqlValue) : SemConvert
  | cTryFrom (inter : PrimSem) (f : SqlValue → Except MappingError SqlValue) : SemConvert
  | cFromFn (inter : PrimSem) (f : SqlValue → SqlValue) : SemConvert

/-- The `FromSql` target type of a Plain field (`FromRowField::target_ty`,
lib.rs 133-145, semantically): the conversion's intermediate type when a
conversion directive is present, else the declared type. -/
def targetPrim (declared : PrimSem) : Option SemConvert → PrimSem
  | some (.cFrom i _) => i
  | some (.cTryFrom i _) => i
  | some (.cFromFn i _) => i
  | none => declared

/-- A decoded runtime value: a primitive or a struct (field name/value
pairs in declaration order). -/
inductive FieldValue : Type where
  | vprim (v : SqlValue) : FieldValue
  | vstrukt (fields : List (String × FieldValue)) : FieldValue

mutual
/-- A field of a struct deriving `FromRow`, fused with the semantic
content of its declared type:
* `plainF ident rename conv dflt ty` — a Plain field
  (`FromRowAttrs::Field`, lib.rs 330-334) of `FromSql` type `ty`;
* `flattenF ident pfxd dflt nested` — a `flatten` field
  (`FromRowAttrs::Flatten`, lib.rs 326-329) whose declared type is the
  struct with fields `nested`; `dflt = some dv` records the `default`
  directive together with the declared type's `Default::default()` value
  `dv`;
* `skipF ident dfltVal` — a `skip` field whose declared type's
  `Default::default()` is `dfltVal`. -/
inductive SemField : Type where
  | plainF (ident : String) (rename : Option String) (conv : Option SemConvert)
      (dflt : Bool) (ty : PrimSem) : SemField
  | flattenF (ident : String) (pfxd : Option PfxDir) (dflt : Option FieldValue)
      (nested : SemFields) : SemField
  | skipF (ident : String) (dfltVal : FieldValue) : SemField

/-- The ordered field list of a struct deriving `FromRow`. -/
inductive SemFields : Type where
  | nil : SemFields
  | cons (f : SemField) (rest : SemFields) : SemFields
end

/-- The identifier of a field. -/
def fieldIdent : SemField → String
  | .plainF ident _ _ _ _ => ident
  | .flattenF ident _ _ _ => ident
  | .skipF ident _ => ident

/-- The generated `is_all_null` body (lib.rs 213-245 assembled by the
left-to-right short-circuiting `&&` chain of lib.rs 104): for a Plain
field, `Row::get_ref(row, prefix + column_name)? == ValueRef::Null`; for a
`flatten` field, the nested struct's own `is_all_null` under the composed
prefix; `skip` fields contribute no conjunct (lib.rs 241).  (A struct
whose fields are all `skip` would make the emitted `Ok(..&&*..)` chain
empty and fail to compile in Rust; the model returns `Ok(true)` there,
which no claim relies on.) -/
def isAllNullFields : SemFields → Row → Option String → Except MappingError Bool
  | .nil, _, _ => .ok true
  | .cons (.skipF _ _) rest, row, pfx => isAllNullFields rest row pfx
  | .cons (.flattenF ident pfxd _ nested) rest, row, pfx =>
      match isAllNullFields nested row (childPfx ident pfxd pfx) with
      | .error e => .error e
      | .ok true => isAllNullFields rest row pfx
      | .ok false => .ok false
  | .cons (.plainF ident rename _ _ _) rest, row, pfx =>
      match getRef row (resolvedKey pfx rename ident) with
      | .error e => .error e
      | .ok .null => isAllNullFields rest row pfx
      | .ok _ => .ok false

/-- The columns a struct's generated `is_all_null`/`try_from_row_prefixed`
may read, in probe order: the resolved key of each Plain field and,
recursively, the columns of each `flatten` field under its composed
prefix; `skip` fields contribute none. -/
def probedCols : SemFields → Option String → List String
  | .nil, _ => []
  | .cons (.skipF _ _) rest, pfx => probedCols rest pfx
  | .cons (.flattenF ident pfxd _ nested) rest, pfx =>
      probedCols nested (childPfx ident pfxd pfx) ++ probedCols rest pfx
  | .cons (.plainF ident rename _ _ _) rest, pfx =>
      resolvedKey pfx rename ident :: probedCols rest pfx

/-- The raw read of a Plain field's column (lib.rs 290-299): under the
`default` directive, `Row::get_ref` then substitute the target type's
default on the null sentinel, else `FromSql::column_result`; without
`default`, plain `Row::get`. -/
def plainRead (t : PrimSem) (c : String) (dflt : Bool) (row : Row) : Except MappingError SqlValue :=
  if dflt then
    match getRef row c with
    | .error e => .error e
    | .ok .null => .ok t.dfltVal
    | .ok v => columnResult t c v
  else rowGet t c row

/-- The full decode expression of a Plain field (lib.rs 281-312): the raw
read of `plainRead` at the resolved key, then the conversion —
`From::from` / the named function (infallible), `TryFrom::try_from`
(fallible, error propagated), or none. -/
def plainDecode (ident : String) (rename : Option String) (conv : Option SemConvert)
    (dflt : Bool) (ty : PrimSem) (row : Row) (pfx : Option String) :
    Except MappingError FieldValue :=
  match conv, plainRead (targetPrim ty conv) (resolvedKey pfx rename ident) dflt row with
  | _, .error e => .error e
  | some (.cFrom _ f), .ok v => .ok (.vprim (f v))
  | some (.cTryFrom _ f), .ok v =>
      match f v with
      | .error e => .error e
      | .ok w => .ok (.vprim w)
  | some (.cFromFn _ f), .ok v => .ok (.vprim (f v))
  | none, .ok v => .ok (.vprim v)

mutual
/-- The decode expression generated for one field
(`FromRowField::generate_try_from_row`, lib.rs 248-322):
* `skip` — the declared type's default value, no row access (lib.rs 314-318);
* Plain — `plainDecode` (lib.rs 281-312);
* `flatten` without `default` — the nested struct's own
  `try_from_row_prefixed` under the composed prefix (lib.rs 278);
* `flatten` with `default` — `Option<T>::try_from_row_prefixed` (the
  nested probe, then decode-or-absent; src/lib.rs 50-60) and substitution
  of the declared type's default on absent (lib.rs 268-276). -/
def decodeField : SemField → Row → Option String → Except MappingError FieldValue
  | .skipF _ d, _, _ => .ok d
  | .plainF ident rename conv dflt ty, row, pfx => plainDecode ident rename conv dflt ty row pfx
  | .flattenF ident pfxd none nested, row, pfx =>
      match decodeFields nested row (childPfx ident pfxd pfx) with
      | .error e => .error e
      | .ok vs => .ok (.vstrukt vs)
  | .flattenF ident pfxd (some dv) nested, row, pfx =>
      match isAllNullFields nested row (childPfx ident pfxd pfx) with
      | .error e => .error e
      | .ok true => .ok dv
      | .ok false =>
          match decodeFields nested row (childPfx ident pfxd pfx) with
          | .error e => .error e
          | .ok vs => .ok (.vstrukt vs)

/-- The body of the generated `try_from_row_prefixed` (lib.rs 89-98):
build the struct field by field in declaration order, short-circuiting on
the first failure. -/
def decodeFields : SemFields → Row → Option String → Except MappingError (List (String × FieldValue))
  | .nil, _, _ => .ok []
  | .cons f rest, row, pfx =>
      match decodeField f row pfx with
      | .error e => .error e
      | .ok v =>
          match decodeFields rest row pfx with
          | .error e => .error e
          | .ok vs => .ok ((fieldIdent f, v) :: vs)
end

/-- The generated `try_from_row_prefixed` of a struct with field list
`fs`, as a struct value. -/
def tryFromRowStruct (fs : SemFields) (row : Row) (pfx : Option String) :
    Except MappingError FieldValue :=
  match decodeFields fs row pfx with
  | .error e => .error e
  | .ok vs => .ok (.vstrukt vs)

/-- `impl FromRow for Option<T>`, `try_from_row_prefixed` (src/lib.rs
51-60): `Ok(None)` when `T::is_all_null` holds, else `Ok(Some(...))` of
`T`'s own decode, propagating errors of both. -/
def optionTryFromRow (t : SemFields) (row : Row) (pfx : Option String) :
    Except MappingError (Option FieldValue) :=
  match isAllNullFields t row pfx with
  | .error e => .error e
  | .ok true => .ok none
  | .ok false =>
      match tryFromRowStruct t row pfx with
      | .error e => .error e
      | .ok v => .ok (some v)

/-- `impl FromRow for Option<T>`, `is_all_null` (src/lib.rs 62-64): defer
to `T::is_all_null` unchanged. -/
def optionIsAllNull (t : SemFields) (row : Row) (pfx : Option String) :
    Except MappingError Bool :=
  isAllNullFields t row pfx

/-- The per-field null probe as an optional expression
(`FromRowField::generate_is_all_null`, lib.rs 213-245): `none` for a
`skip` field, otherwise the probe expression. -/
def fieldProbe (f : SemField) (row : Row) (pfx : Option String) :
    Option (Except MappingError Bool) :=
  match f with
  | .skipF _ _ => none
  | .flattenF ident pfxd _ nested =>
      some (isAllNullFields nested row (childPfx ident pfxd pfx))
  | .plainF ident rename _ _ _ =>
      some (match getRef row (resolvedKey pfx rename ident) with
            | .error e => .error e
            | .ok .null => .ok true
            | .ok _ => .ok false)

/-- The list of probe expressions of the non-`skip` fields, in declaration
order (the iterator of lib.rs 85). -/
def probeList : SemFields → Row → Option String → List (Except MappingError Bool)
  | .nil, _, _ => []
  | .cons f rest, row, pfx =>
      match fieldProbe f row pfx with
      | none => probeList rest row pfx
      | some p => p :: probeList rest row pfx

/-- Left-to-right short-circuiting conjunction of fallible probes: Rust's
`p1 && p2 && ...` chain of lib.rs 104 (empty chain is `true`). -/
def probeChain : List (Except MappingError Bool) → Except MappingError Bool
  | [] => .ok true
  | p :: ps =>
      match p with
      | .error e => .error e
      | .ok false => .ok false
      | .ok true => probeChain ps

/-! ### Syntactic layer: the derive macro's own data -/

/-- A Rust type or path as written in an attribute value or field
declaration, kept as its token text. -/
abbrev RustTy : Type := String

/-- The parsed conversion directive (`Convert`, lib.rs 338-342). -/
inductive ConvertSyn : Type where
  | cFrom (ty : RustTy) : ConvertSyn
  | cTryFrom (ty : RustTy) : ConvertSyn
  | cFromFn (fn : RustTy) : ConvertSyn

/-- The parsed directive variant of one field (`FromRowAttrs`,
lib.rs 325-336). -/
inductive FromRowAttrs : Type where
  | flattenA (pfxd : Option PfxDir) (default : Bool) : FromRowAttrs
  | fieldA (rename : Option String) (convert : Option ConvertSyn) (default : Bool) : FromRowAttrs
  | skipA : FromRowAttrs

/-- The raw per-field annotation state accumulated by the key loop of
`FromRowAttrs::parse` (lib.rs 359-404), before validation.  `from` is a
Lean keyword, so that key is called `fromTy` here. -/
structure RawAttrs : Type where
  flatten : Bool
  pfxd : Option PfxDir
  tryFrom : Option RustTy
  fromTy : Option RustTy
  fromFn : Option RustTy
  rename : Option String
  skip : Bool
  default : Bool

/-- A field with no `#[from_row]` annotation at all (the early return of
lib.rs 351-357 corresponds to this raw state). -/
def RawAttrs.empty : RawAttrs :=
  ⟨false, none, none, none, none, none, false, false⟩

/-- The generation-time fatal errors of `FromRowAttrs::parse`
(spec §7 `DirectiveConflict`), one per `Error::new` site:
* `skipCombined` — "can't combine `skip` with other attributes" (lib.rs 416-419);
* `flattenCombined` — the rejection of `flatten` with
  `rename`/`from`/`try_from`/`from_fn` (lib.rs 425-428; its message text
  also says "skip", an apparent copy-paste in the message only);
* `pfxWithoutFlatten` — "`prefix` attribute is only valid in combination
  with `flatten`" (lib.rs 434-437);
* `convertCombined` — "can't combine `try_from`, `from` or `from_fn`"
  (lib.rs 446-449). -/
inductive ParseErr : Type where
  | skipCombined : ParseErr
  | flattenCombined : ParseErr
  | pfxWithoutFlatten : ParseErr
  | convertCombined : ParseErr
deriving DecidableEq

/-- The validation half of `FromRowAttrs::parse` (lib.rs 406-460). -/
def FromRowAttrs.parse (r : RawAttrs) : Except ParseErr FromRowAttrs :=
  if r.skip then
    if r.flatten || r.default || r.pfxd.isSome || r.tryFrom.isSome
        || r.fromFn.isSome || r.fromTy.isSome || r.rename.isSome then
      .error .skipCombined
    else
      .ok .skipA
  else if r.flatten then
    if r.rename.isSome || r.fromTy.isSome || r.tryFrom.isSome || r.fromFn.isSome then
      .error .flattenCombined
    else
      .ok (.flattenA r.pfxd r.default)
  else if r.pfxd.isSome then
    .error .pfxWithoutFlatten
  else
    match r.tryFrom, r.fromTy, r.fromFn with
    | some t, none, none => .ok (.fieldA r.rename (some (.cTryFrom t)) r.default)
    | none, some f, none => .ok (.fieldA r.rename (some (.cFrom f)) r.default)
    | none, none, some fn => .ok (.fieldA r.rename (some (.cFromFn fn)) r.default)
    | none, none, none => .ok (.fieldA r.rename none r.default)
    | _, _, _ => .error .convertCombined

/-- One field of the derive input (`FromRowField`, lib.rs 112-118), with
its directives already parsed. -/
structure FromRowField : Type where
  ident : String
  ty : RustTy
  attrs : FromRowAttrs

/-- `DeriveFromRow::parse` over the field list (lib.rs 54-58): parse every
field's attributes in order, aborting on the first directive error —
generation never runs on an invalid input. -/
def parseFields : List (String × RustTy × RawAttrs) → Except ParseErr (List FromRowField)
  | [] => .ok []
  | (ident, ty, r) :: rest =>
      match FromRowAttrs.parse r with
      | .error e => .error e
      | .ok attrs =>
          match parseFields rest with
          | .error e => .error e
          | .ok fs => .ok (⟨ident, ty, attrs⟩ :: fs)

/-- `FromRowField::target_ty` (lib.rs 133-145): the conversion's
intermediate type for `from`/`try_from`, no statically named type
(`None`, emitted as `_`) for `from_fn`, else the declared type. -/
def FromRowField.targetTy (f : FromRowField) : Option RustTy :=
  match f.attrs with
  | .fieldA _ (some (.cFrom ty)) _ => some ty
  | .fieldA _ (some (.cTryFrom ty)) _ => some ty
  | .fieldA _ (some (.cFromFn _)) _ => none
  | _ => some f.ty

/-- A where-clause predicate emitted by the Constraint Collector, one
constructor per `quote!` shape in `add_predicates` (lib.rs 165-211). -/
inductive WherePred : Type where
  | fromSqlP (t : RustTy) : WherePred
  | defaultP (t : RustTy) : WherePred
  | fromRowP (t : RustTy) : WherePred
  | fromP (t : RustTy) (r : RustTy) : WherePred
  | tryFromP (t : RustTy) (r : RustTy) : WherePred
  | errFromP (t : RustTy) (r : RustTy) : WherePred
  | errDebugP (t : RustTy) (r : RustTy) : WherePred
deriving DecidableEq

/-- `FromRowField::add_predicates` (lib.rs 165-211), returning the
predicates this field pushes, in push order.  Note the `From` arm of the
source (lib.rs 183-184): its match pattern `Convert::From(target_ty)`
rebinds `target_ty` to the conversion's intermediate type, so the emitted
predicate is `R: std::convert::From<R>` with the intermediate type on
both sides — unlike the `TryFrom` arm, which uses the declared type `ty`
on the left. -/
def FromRowField.addPredicates (f : FromRowField) : List WherePred :=
  match f.attrs with
  | .fieldA _ convert default =>
      let base :=
        match f.targetTy with
        | some t => [WherePred.fromSqlP t] ++ (if default then [WherePred.defaultP t] else [])
        | none => []
      base ++
        match convert with
        | some (.cFrom r) => [WherePred.fromP r r]
        | some (.cTryFrom r) => [WherePred.tryFromP f.ty r, WherePred.errFromP f.ty r, WherePred.errDebugP f.ty r]
        | _ => []
  | .flattenA _ default =>
      [WherePred.fromRowP f.ty] ++ (if default then [WherePred.defaultP f.ty] else [])
  | .skipA => [WherePred.defaultP f.ty]

/-- `DeriveFromRow::predicates` (lib.rs 67-75): concatenation of the
per-field predicates in field order. -/
def structPredicates (fs : List FromRowField) : List WherePred :=
  fs.flatMap FromRowField.addPredicates

/-! ### Spec-side definitions (for the refinement claims)

These follow the *spec's words* and are compared against the
source-derived definitions above. -/

/-- Modelled from the spec, §3 ColumnName: "resolved lookup key =
`inherited_prefix + (rename or field_name)` for Plain fields". -/
def specLookupKey (inherited : String) (rename : Option String) (fieldName : String) : String :=
  inherited ++ (rename.getD fieldName)

/-- Modelled from the spec, §8: "FieldDerived on field `editor` ⇒ child
prefix `<parent>editor_`". -/
def specChildFieldDerived (parent fieldName : String) : String :=
  parent ++ fieldName ++ "_"

/-- Modelled from the spec, §8: "Explicit `\"ed_\"` ⇒ `<parent>ed_`,
independent of field name". -/
def specChildExplicit (parent s : String) : String :=
  parent ++ s

/-! ### Row-accessor lemmas -/

/-- A column absent from the row makes `get_ref` fail with
`InvalidColumnName` for that very name. -/
theorem getRef_not_mem (row : Row) (c : String) (h : c ∉ row.map Prod.fst) :
    getRef row c = .error (.missingColumn c) := by
  induction row with
  | nil => rfl
  | cons p rest ih =>
      obtain ⟨n, v⟩ := p
      simp only [List.map_cons, List.mem_cons] at h
      push_neg at h
      simp only [getRef]
      rw [if_neg fun hnc => h.1 hnc.symm]
      exact ih h.2

/-- Reading back a flipped column: if the column was present, `get_ref`
now returns the new value. -/
theorem getRef_setCol_self (row : Row) (c : String) (v w : SqlValue)
    (h : getRef row c = .ok w) : getRef (setCol row c v) c = .ok v := by
  induction row with
  | nil => simp [getRef] at h
  | cons p rest ih =>
      obtain ⟨n, u⟩ := p
      by_cases hnc : n = c
      · subst hnc
        simp [setCol, getRef]
      · simp only [getRef, if_neg hnc] at h
        simp only [setCol, if_neg hnc, getRef, if_neg hnc]
        exact ih h

/-- Flipping column `c` leaves every other column unchanged. -/
theorem getRef_setCol_other (row : Row) (c c' : String) (v : SqlValue) (h : c' ≠ c) :
    getRef (setCol row c v) c' = getRef row c' := by
  induction row with
  | nil => rfl
  | cons p rest ih =>
      obtain ⟨n, u⟩ := p
      by_cases hnc : n = c
      · subst hnc
        simp only [setCol, if_pos rfl, getRef]
        rw [if_neg fun hh => h hh.symm, if_neg fun hh => h hh.symm]
        exact ih
      · simp only [setCol, if_neg hnc, getRef]
        by_cases hnc' : n = c'
        · simp [if_pos hnc']
        · simp [if_neg hnc', ih]

/-- Removing column `c` leaves every other column unchanged. -/
theorem getRef_removeCol_other (row : Row) (c c' : String) (h : c' ≠ c) :
    getRef (removeCol row c) c' = getRef row c' := by
  induction row with
  | nil => rfl
  | cons p rest ih =>
      obtain ⟨n, u⟩ := p
      by_cases hnc : n = c
      · subst hnc
        have hx : ¬ (n = c') := fun hh => h hh.symm
        simp only [removeCol, if_pos rfl, getRef, if_neg hx]
        exact ih
      · simp only [removeCol, if_neg hnc, getRef]
        by_cases hnc' : n = c'
        · simp [if_pos hnc']
        · simp [if_neg hnc', ih]

/-! ### Structural lemmas about the generated probe and decoder -/

/-- Characterization of the whole-struct probe: it returns `Ok(true)`
exactly when every column it touches is present and null. -/
theorem isAllNull_ok_true_iff (fs : SemFields) (row : Row) (pfx : Option String) :
    isAllNullFields fs row pfx = .ok true ↔
      ∀ c ∈ probedCols fs pfx, getRef row c = .ok .null := by
  match fs with
  | .nil => simp [isAllNullFields, probedCols]
  | .cons (.skipF i d) rest =>
      have ih := isAllNull_ok_true_iff rest row pfx
      simpa [isAllNullFields, probedCols] using ih
  | .cons (.flattenF i pd dv nested) rest =>
      have ih1 := isAllNull_ok_true_iff nested row (childPfx i pd pfx)
      have ih2 := isAllNull_ok_true_iff rest row pfx
      constructor
      · intro hL
        rcases h : isAllNullFields nested row (childPfx i pd pfx) with e | b
        · rw [isAllNullFields, h] at hL
          cases hL
        · cases b with
          | false =>
              rw [isAllNullFields, h] at hL
              cases hL
          | true =>
              rw [isAllNullFields, h] at hL
              intro c hc
              simp only [probedCols, List.mem_append, List.mem_cons] at hc
              rcases hc with hc | hc
              · exact (ih1.mp h) c hc
              · exact (ih2.mp hL) c hc
      · intro hall
        have hn : isAllNullFields nested row (childPfx i pd pfx) = .ok true :=
          ih1.mpr fun c hc => hall c (by simp only [probedCols, List.mem_append]; exact Or.inl hc)
        have hr : isAllNullFields rest row pfx = .ok true :=
          ih2.mpr fun c hc => hall c (by simp only [probedCols, List.mem_append]; exact Or.inr hc)
        rw [isAllNullFields, hn, hr]
  | .cons (.plainF i rn cv df ty) rest =>
      have ih := isAllNull_ok_true_iff rest row pfx
      constructor
      · intro hL
        rcases h : getRef row (resolvedKey pfx rn i) with e | v
        · rw [isAllNullFields, h] at hL
          cases hL
        · cases v with
          | null =>
              rw [isAllNullFields, h] at hL
              intro c hc
              simp only [probedCols, List.mem_cons] at hc
              rcases hc with hc | hc
              · rw [hc]; exact h
              · exact (ih.mp hL) c hc
          | integer j => rw [isAllNullFields, h] at hL; cases hL
          | text s => rw [isAllNullFields, h] at hL; cases hL
      · intro hall
        have hc0 : getRef row (resolvedKey pfx rn i) = .ok .null :=
          hall (resolvedKey pfx rn i) (by simp [probedCols])
        have hr : isAllNullFields rest row pfx = .ok true :=
          ih.mpr fun c hc => hall c (by simp only [probedCols, List.mem_cons]; exact Or.inr hc)
        rw [isAllNullFields, hc0, hr]

/-- If every column the probe touches is present, the probe cannot fail:
it returns `Ok` of some boolean. -/
theorem isAllNull_isOk (fs : SemFields) (row : Row) (pfx : Option String)
    (h : ∀ c ∈ probedCols fs pfx, ∃ w, getRef row c = .ok w) :
    ∃ b, isAllNullFields fs row pfx = .ok b := by
  match fs with
  | .nil => exact ⟨true, rfl⟩
  | .cons (.skipF i d) rest =>
      have ih := isAllNull_isOk rest row pfx (by simpa [probedCols] using h)
      simpa [isAllNullFields] using ih
  | .cons (.flattenF i pd dv nested) rest =>
      obtain ⟨b1, h1⟩ := isAllNull_isOk nested row (childPfx i pd pfx)
        (fun c hc => h c (by simp only [probedCols, List.mem_append]; exact Or.inl hc))
      obtain ⟨b2, h2⟩ := isAllNull_isOk rest row pfx
        (fun c hc => h c (by simp only [probedCols, List.mem_append]; exact Or.inr hc))
      cases b1 with
      | true => exact ⟨b2, by rw [isAllNullFields, h1, h2]⟩
      | false => exact ⟨false, by rw [isAllNullFields, h1]⟩
  | .cons (.plainF i rn cv df ty) rest =>
      obtain ⟨w, hw⟩ := h (resolvedKey pfx rn i) (by simp [probedCols])
      obtain ⟨b2, h2⟩ := isAllNull_isOk rest row pfx
        (fun c hc => h c (by simp only [probedCols, List.mem_cons]; exact Or.inr hc))
      cases w with
      | null => exact ⟨b2, by rw [isAllNullFields, hw, h2]⟩
      | integer j => exact ⟨false, by rw [isAllNullFields, hw]⟩
      | text s => exact ⟨false, by rw [isAllNullFields, hw]⟩

/-- Frame property of the probe: it depends on the row only through the
columns it touches. -/
theorem isAllNull_frame (fs : SemFields) (row row' : Row) (pfx : Option String)
    (h : ∀ c ∈ probedCols fs pfx, getRef row c = getRef row' c) :
    isAllNullFields fs row pfx = isAllNullFields fs row' pfx := by
  match fs with
  | .nil => rfl
  | .cons (.skipF i d) rest =>
      have ih := isAllNull_frame rest row row' pfx (by simpa [probedCols] using h)
      simpa [isAllNullFields] using ih
  | .cons (.flattenF i pd dv nested) rest =>
      have ih1 := isAllNull_frame nested row row' (childPfx i pd pfx)
        (fun c hc => h c (by simp only [probedCols, List.mem_append]; exact Or.inl hc))
      have ih2 := isAllNull_frame rest row row' pfx
        (fun c hc => h c (by simp only [probedCols, List.mem_append]; exact Or.inr hc))
      rw [isAllNullFields, isAllNullFields, ← ih1, ih2]
  | .cons (.plainF i rn cv df ty) rest =>
      have h0 : getRef row (resolvedKey pfx rn i) = getRef row' (resolvedKey pfx rn i) :=
        h (resolvedKey pfx rn i) (by simp [probedCols])
      have ih := isAllNull_frame rest row row' pfx
        (fun c hc => h c (by simp only [probedCols, List.mem_cons]; exact Or.inr hc))
      rw [isAllNullFields, isAllNullFields, ← h0, ih]

/-- The columns a single field's generated code may touch. -/
def fieldCols : SemField → Option String → List String
  | .skipF _ _, _ => []
  | .flattenF ident pfxd _ nested, pfx => probedCols nested (childPfx ident pfxd pfx)
  | .plainF ident rename _ _ _, pfx => [resolvedKey pfx rename ident]

/-- `probedCols` decomposes per field. -/
theorem probedCols_cons (f : SemField) (rest : SemFields) (pfx : Option String) :
    probedCols (.cons f rest) pfx = fieldCols f pfx ++ probedCols rest pfx := by
  cases f <;> simp [probedCols, fieldCols]

/-- The raw Plain read depends on the row only through its own column. -/
theorem plainRead_frame (t : PrimSem) (c : String) (df : Bool) (row row' : Row)
    (h : getRef row c = getRef row' c) : plainRead t c df row = plainRead t c df row' := by
  simp only [plainRead, rowGet, h]

/-- A Plain field's decode expression depends on the row only through its
resolved column. -/
theorem plainDecode_frame (i : String) (rn : Option String) (cv : Option SemConvert)
    (df : Bool) (ty : PrimSem) (row row' : Row) (pfx : Option String)
    (h : getRef row (resolvedKey pfx rn i) = getRef row' (resolvedKey pfx rn i)) :
    plainDecode i rn cv df ty row pfx = plainDecode i rn cv df ty row' pfx := by
  unfold plainDecode
  rw [plainRead_frame (targetPrim ty cv) (resolvedKey pfx rn i) df row row' h]

mutual
/-- Frame property of one field's decode expression: it depends on the
row only through the columns it touches. -/
theorem decodeField_frame (f : SemField) (row row' : Row) (pfx : Option String)
    (h : ∀ c ∈ fieldCols f pfx, getRef row c = getRef row' c) :
    decodeField f row pfx = decodeField f row' pfx := by
  match f with
  | .skipF i d => rfl
  | .plainF i rn cv df ty =>
      simp only [decodeField]
      exact plainDecode_frame i rn cv df ty row row' pfx
        (h (resolvedKey pfx rn i) (by simp [fieldCols]))
  | .flattenF i pd none nested =>
      have ihd := decodeFields_frame nested row row' (childPfx i pd pfx)
        (fun c hc => h c (by simpa [fieldCols] using hc))
      simp only [decodeField, ihd]
  | .flattenF i pd (some dv) nested =>
      have ihp := isAllNull_frame nested row row' (childPfx i pd pfx)
        (fun c hc => h c (by simpa [fieldCols] using hc))
      have ihd := decodeFields_frame nested row row' (childPfx i pd pfx)
        (fun c hc => h c (by simpa [fieldCols] using hc))
      simp only [decodeField, ihp, ihd]

/-- Frame property of the whole-struct decode: it depends on the row only
through the columns it touches. -/
theorem decodeFields_frame (fs : SemFields) (row row' : Row) (pfx : Option String)
    (h : ∀ c ∈ probedCols fs pfx, getRef row c = getRef row' c) :
    decodeFields fs row pfx = decodeFields fs row' pfx := by
  match fs with
  | .nil => rfl
  | .cons f rest =>
      have h1 := decodeField_frame f row row' pfx
        (fun c hc => h c (by rw [probedCols_cons]; exact List.mem_append_left _ hc))
      have h2 := decodeFields_frame rest row row' pfx
        (fun c hc => h c (by rw [probedCols_cons]; exact List.mem_append_right _ hc))
      simp only [decodeFields, h1, h2]
end

/-- The generated `is_all_null` body equals the short-circuiting
conjunction of the per-field probes of the non-`skip` fields. -/
theorem isAllNull_eq_probeChain (fs : SemFields) (row : Row) (pfx : Option String) :
    isAllNullFields fs row pfx = probeChain (probeList fs row pfx) := by
  match fs with
  | .nil => rfl
  | .cons (.skipF i d) rest =>
      simp only [isAllNullFields, probeList, fieldProbe]
      exact isAllNull_eq_probeChain rest row pfx
  | .cons (.flattenF i pd dv nested) rest =>
      rcases h : isAllNullFields nested row (childPfx i pd pfx) with e | b
      · simp [isAllNullFields, probeList, fieldProbe, probeChain, h]
      · cases b
        · simp [isAllNullFields, probeList, fieldProbe, probeChain, h]
        · simp only [isAllNullFields, probeList, fieldProbe, probeChain, h]
          exact isAllNull_eq_probeChain rest row pfx
  | .cons (.plainF i rn cv df ty) rest =>
      rcases h : getRef row (resolvedKey pfx rn i) with e | v
      · simp [isAllNullFields, probeList, fieldProbe, probeChain, h]
      · cases v with
        | null =>
            simp only [isAllNullFields, probeList, fieldProbe, probeChain, h]
            exact isAllNull_eq_probeChain rest row pfx
        | integer j => simp [isAllNullFields, probeList, fieldProbe, probeChain, h]
        | text s => simp [isAllNullFields, probeList, fieldProbe, probeChain, h]

/-- `flatten` with `default` is exactly the optional decode followed by
default-on-absent (lib.rs 268-276 around src/lib.rs 51-60). -/
theorem decodeField_flatten_default_eq (i : String) (pd : Option PfxDir) (dv : FieldValue)
    (nested : SemFields) (row : Row) (pfx : Option String) :
    decodeField (.flattenF i pd (some dv) nested) row pfx =
      (match optionTryFromRow nested row (childPfx i pd pfx) with
       | .error e => .error e
       | .ok (some v) => .ok v
       | .ok none => .ok dv) := by
  rcases h : isAllNullFields nested row (childPfx i pd pfx) with e | b
  · simp [decodeField, optionTryFromRow, h]
  · cases b
    · rcases hd : decodeFields nested row (childPfx i pd pfx) with e | vs
      · simp [decodeField, optionTryFromRow, tryFromRowStruct, h, hd]
      · simp [decodeField, optionTryFromRow, tryFromRowStruct, h, hd]
    · simp [decodeField, optionTryFromRow, h]

/-- Shape restriction used for the amended C5 statement: no field
reachable through `flatten`-without-`default` chains carries a `try_from`
conversion (a failing `TryFrom` impl could otherwise turn the first
failure into a `ConversionFailed` error).  A `flatten` field that carries
`default` is a leaf here: on an all-null row only its probe runs, never
its decoder, so conversions below it are irrelevant. -/
def noTryFromReach : SemFields → Bool
  | .nil => true
  | .cons (.plainF _ _ (some (.cTryFrom _ _)) _ _) _ => false
  | .cons (.plainF _ _ _ _ _) rest => noTryFromReach rest
  | .cons (.skipF _ _) rest => noTryFromReach rest
  | .cons (.flattenF _ _ (some _) _) rest => noTryFromReach rest
  | .cons (.flattenF _ _ none nested) rest =>
      noTryFromReach nested && noTryFromReach rest

/-- Whether some Plain field reachable through `flatten`-without-`default`
chains decodes at a non-nullable target and does not carry the `default`
directive — a field whose decode must fail when its column is null. -/
def hasStrictReach : SemFields → Bool
  | .nil => false
  | .cons (.plainF _ _ cv df ty) rest =>
      (!df && !(targetPrim ty cv).nullable) || hasStrictReach rest
  | .cons (.skipF _ _) rest => hasStrictReach rest
  | .cons (.flattenF _ _ (some _) _) rest => hasStrictReach rest
  | .cons (.flattenF _ _ none nested) rest =>
      hasStrictReach nested || hasStrictReach rest

/-- A Plain decode whose raw read succeeded and whose conversion is not
`try_from` cannot fail. -/
theorem plainDecode_ok_of_base (i : String) (rn : Option String) (cv : Option SemConvert)
    (df : Bool) (ty : PrimSem) (row : Row) (pfx : Option String) (v : SqlValue)
    (hcv : ∀ p f, cv ≠ some (.cTryFrom p f))
    (hb : plainRead (targetPrim ty cv) (resolvedKey pfx rn i) df row = .ok v) :
    ∃ w, plainDecode i rn cv df ty row pfx = .ok w := by
  match cv with
  | none => exact ⟨.vprim v, by simp [plainDecode, hb]⟩
  | some (.cFrom p f) => exact ⟨.vprim (f v), by simp [plainDecode, hb]⟩
  | some (.cTryFrom p f) => exact absurd rfl (hcv p f)
  | some (.cFromFn p f) => exact ⟨.vprim (f v), by simp [plainDecode, hb]⟩

/-- On an all-null row, a struct with no reachable `try_from` conversion
and no reachable strict Plain field decodes successfully: every Plain
field is defaulted or nullable, every `flatten`-with-`default` field
probes true and takes its default, and `flatten` sub-structs succeed
recursively. -/
theorem decodeFields_all_null_ok (fs : SemFields) (row : Row) (pfx : Option String)
    (hshape : noTryFromReach fs = true)
    (hstrict : hasStrictReach fs = false)
    (hnull : ∀ c ∈ probedCols fs pfx, getRef row c = .ok .null) :
    ∃ vs, decodeFields fs row pfx = .ok vs := by
  match fs with
  | .nil => exact ⟨[], rfl⟩
  | .cons (.skipF i d) rest =>
      obtain ⟨vs, hvs⟩ := decodeFields_all_null_ok rest row pfx
        (by simpa [noTryFromReach] using hshape)
        (by simpa [hasStrictReach] using hstrict)
        (fun c hc => hnull c (by simpa [probedCols] using hc))
      exact ⟨(i, d) :: vs, by simp [decodeFields, decodeField, fieldIdent, hvs]⟩
  | .cons (.flattenF i pd (some dv) nested) rest =>
      have hp : isAllNullFields nested row (childPfx i pd pfx) = .ok true :=
        (isAllNull_ok_true_iff nested row (childPfx i pd pfx)).mpr
          (fun c hc => hnull c (by simp only [probedCols, List.mem_append]; exact Or.inl hc))
      obtain ⟨vs, hvs⟩ := decodeFields_all_null_ok rest row pfx
        (by simpa [noTryFromReach] using hshape)
        (by simpa [hasStrictReach] using hstrict)
        (fun c hc => hnull c (by simp only [probedCols, List.mem_append]; exact Or.inr hc))
      exact ⟨(i, dv) :: vs, by simp [decodeFields, decodeField, fieldIdent, hp, hvs]⟩
  | .cons (.flattenF i pd none nested) rest =>
      have hsh : noTryFromReach nested = true ∧ noTryFromReach rest = true := by
        have := hshape
        simp only [noTryFromReach, Bool.and_eq_true] at this
        exact this
      have hst : hasStrictReach nested = false ∧ hasStrictReach rest = false := by
        have := hstrict
        simp only [hasStrictReach, Bool.or_eq_false_iff] at this
        exact this
      obtain ⟨nvs, hnvs⟩ := decodeFields_all_null_ok nested row (childPfx i pd pfx)
        hsh.1 hst.1
        (fun c hc => hnull c (by simp only [probedCols, List.mem_append]; exact Or.inl hc))
      obtain ⟨vs, hvs⟩ := decodeFields_all_null_ok rest row pfx hsh.2 hst.2
        (fun c hc => hnull c (by simp only [probedCols, List.mem_append]; exact Or.inr hc))
      exact ⟨(i, .vstrukt nvs) :: vs, by simp [decodeFields, decodeField, fieldIdent, hnvs, hvs]⟩
  | .cons (.plainF i rn cv df ty) rest =>
      have hkey : getRef row (resolvedKey pfx rn i) = .ok .null :=
        hnull (resolvedKey pfx rn i) (by simp [probedCols])
      have hcv : ∀ p f, cv ≠ some (.cTryFrom p f) := by
        intro p f heq
        subst heq
        simp [noTryFromReach] at hshape
      have hst : (!df && !(targetPrim ty cv).nullable) = false
          ∧ hasStrictReach rest = false := by
        have := hstrict
        simp only [hasStrictReach, Bool.or_eq_false_iff] at this
        exact this
      have hshape2 : noTryFromReach rest = true := by
        match cv with
        | none => simpa [noTryFromReach] using hshape
        | some (.cFrom p f) => simpa [noTryFromReach] using hshape
        | some (.cTryFrom p f) => exact absurd rfl (hcv p f)
        | some (.cFromFn p f) => simpa [noTryFromReach] using hshape
      have hbase : ∃ v, plainRead (targetPrim ty cv) (resolvedKey pfx rn i) df row = .ok v := by
        cases hdf : df
        · have h1 := hst.1
          rw [hdf] at h1
          simp at h1
          exact ⟨.null, by simp [plainRead, hdf, rowGet, hkey, columnResult, h1]⟩
        · exact ⟨(targetPrim ty cv).dfltVal, by simp [plainRead, hdf, hkey]⟩
      obtain ⟨v, hv⟩ := hbase
      obtain ⟨w, hw⟩ := plainDecode_ok_of_base i rn cv df ty row pfx v hcv hv
      obtain ⟨vs, hvs⟩ := decodeFields_all_null_ok rest row pfx hshape2 hst.2
        (fun c hc => hnull c (by simp only [probedCols, List.mem_cons]; exact Or.inr hc))
      refine ⟨(i, w) :: vs, ?_⟩
      have hfield : decodeField (.plainF i rn cv df ty) row pfx = .ok w := by
        simpa [decodeField] using hw
      simp [decodeFields, fieldIdent, hfield, hvs]

/-- Under a row where every touched column is null, a struct with no
reachable `try_from` conversion and at least one reachable strict
(non-nullable, non-`default`) Plain field — possibly inside a nested
`flatten`-without-`default` sub-struct — fails to decode, and the failure
is `NullOnNonNullable` at some column. -/
theorem decodeFields_all_null_strict (fs : SemFields) (row : Row) (pfx : Option String)
    (hshape : noTryFromReach fs = true)
    (hstrict : hasStrictReach fs = true)
    (hnull : ∀ c ∈ probedCols fs pfx, getRef row c = .ok .null) :
    ∃ c, decodeFields fs row pfx = .error (.nullOnNonNullable c) := by
  match fs with
  | .nil => simp [hasStrictReach] at hstrict
  | .cons (.skipF i d) rest =>
      obtain ⟨c, hc⟩ := decodeFields_all_null_strict rest row pfx
        (by simpa [noTryFromReach] using hshape)
        (by simpa [hasStrictReach] using hstrict)
        (fun c hc => hnull c (by simpa [probedCols] using hc))
      exact ⟨c, by simp [decodeFields, decodeField, hc]⟩
  | .cons (.flattenF i pd (some dv) nested) rest =>
      have hp : isAllNullFields nested row (childPfx i pd pfx) = .ok true :=
        (isAllNull_ok_true_iff nested row (childPfx i pd pfx)).mpr
          (fun c hc => hnull c (by simp only [probedCols, List.mem_append]; exact Or.inl hc))
      obtain ⟨c, hc⟩ := decodeFields_all_null_strict rest row pfx
        (by simpa [noTryFromReach] using hshape)
        (by simpa [hasStrictReach] using hstrict)
        (fun c hc => hnull c (by simp only [probedCols, List.mem_append]; exact Or.inr hc))
      exact ⟨c, by simp [decodeFields, decodeField, hp, hc]⟩
  | .cons (.flattenF i pd none nested) rest =>
      have hsh : noTryFromReach nested = true ∧ noTryFromReach rest = true := by
        have := hshape
        simp only [noTryFromReach, Bool.and_eq_true] at this
        exact this
      rcases hn : hasStrictReach nested
      · have hrest : hasStrictReach rest = true := by
          have := hstrict
          simp only [hasStrictReach, hn, Bool.false_or] at this
          exact this
        obtain ⟨nvs, hnvs⟩ := decodeFields_all_null_ok nested row (childPfx i pd pfx)
          hsh.1 hn
          (fun c hc => hnull c (by simp only [probedCols, List.mem_append]; exact Or.inl hc))
        obtain ⟨c, hc⟩ := decodeFields_all_null_strict rest row pfx hsh.2 hrest
          (fun c hc => hnull c (by simp only [probedCols, List.mem_append]; exact Or.inr hc))
        exact ⟨c, by simp [decodeFields, decodeField, hnvs, hc]⟩
      · obtain ⟨c, hc⟩ := decodeFields_all_null_strict nested row (childPfx i pd pfx)
          hsh.1 hn
          (fun c hc => hnull c (by simp only [probedCols, List.mem_append]; exact Or.inl hc))
        exact ⟨c, by simp [decodeFields, decodeField, hc]⟩
  | .cons (.plainF i rn cv df ty) rest =>
      have hkey : getRef row (resolvedKey pfx rn i) = .ok .null :=
        hnull (resolvedKey pfx rn i) (by simp [probedCols])
      have hcv : ∀ p f, cv ≠ some (.cTryFrom p f) := by
        intro p f heq
        subst heq
        simp [noTryFromReach] at hshape
      by_cases hs : (!df && !(targetPrim ty cv).nullable) = true
      · obtain ⟨hdf, hnn⟩ := Bool.and_eq_true_iff.mp hs
        have hdf2 : df = false := by
          cases df
          · rfl
          · cases hdf
        have hnn2 : (targetPrim ty cv).nullable = false := by
          cases hx : (targetPrim ty cv).nullable
          · rfl
          · rw [hx] at hnn; cases hnn
        refine ⟨resolvedKey pfx rn i, ?_⟩
        have hbase : plainRead (targetPrim ty cv) (resolvedKey pfx rn i) df row =
            .error (.nullOnNonNullable (resolvedKey pfx rn i)) := by
          simp [plainRead, hdf2, rowGet, hkey, columnResult, hnn2]
        have hfield : decodeField (.plainF i rn cv df ty) row pfx =
            .error (.nullOnNonNullable (resolvedKey pfx rn i)) := by
          simp only [decodeField, plainDecode, hbase]
        simp [decodeFields, hfield]
      · have hrest : hasStrictReach rest = true := by
          have := hstrict
          simp only [hasStrictReach] at this
          rcases Bool.or_eq_true_iff.mp this with hx | hx
          · exact absurd hx hs
          · exact hx
        have hshape2 : noTryFromReach rest = true := by
          match cv with
          | none => simpa [noTryFromReach] using hshape
          | some (.cFrom p f) => simpa [noTryFromReach] using hshape
          | some (.cTryFrom p f) => exact absurd rfl (hcv p f)
          | some (.cFromFn p f) => simpa [noTryFromReach] using hshape
        obtain ⟨c, hc⟩ := decodeFields_all_null_strict rest row pfx hshape2 hrest
          (fun c hc => hnull c (by simp only [probedCols, List.mem_cons]; exact Or.inr hc))
        have hbase : ∃ v, plainRead (targetPrim ty cv) (resolvedKey pfx rn i) df row = .ok v := by
          cases hdf : df
          · have hnn : (targetPrim ty cv).nullable = true := by
              rcases hx : (targetPrim ty cv).nullable
              · exfalso
                apply hs
                rw [hdf, hx]
                rfl
              · rfl
            exact ⟨.null, by simp [plainRead, hdf, rowGet, hkey, columnResult, hnn]⟩
          · exact ⟨(targetPrim ty cv).dfltVal, by simp [plainRead, hdf, hkey]⟩
        obtain ⟨v, hv⟩ := hbase
        obtain ⟨w, hw⟩ := plainDecode_ok_of_base i rn cv df ty row pfx v hcv hv
        refine ⟨c, ?_⟩
        have hfield : decodeField (.plainF i rn cv df ty) row pfx = .ok w := by
          simpa [decodeField] using hw
        simp [decodeFields, hfield, hc]

/-- The implementation's lookup key coincides with the spec's ColumnName
formula. -/
theorem resolvedKey_eq_spec (pfx rename : Option String) (ident : String) :
    resolvedKey pfx rename ident = specLookupKey (pfx.getD "") rename ident := by
  cases rename <;> rfl

/-! ### Claims -/

/-- Claim C1: for every Plain field decoded with inherited prefix `p`
(empty at top level), the column looked up — by the null probe and by the
decode expression alike — is exactly `p + (rename value if present, else
the field identifier)`; and for every Flatten field the child prefix
passed to the nested decoder is `p + "<field>_"` under a field-derived
directive, `p +` the explicit string under an explicit directive, and `p`
unchanged when no prefix directive is given. -/
theorem claim_C1_lookup_key_and_child_prefixes :
    (∀ (pfx rename : Option String) (ident : String),
        resolvedKey pfx rename ident = specLookupKey (pfx.getD "") rename ident)
  ∧ (∀ (pfx : Option String) (ident s : String),
        childPfx ident (some (.value s)) pfx = some (specChildExplicit (pfx.getD "") s))
  ∧ (∀ (pfx : Option String) (ident : String),
        childPfx ident (some .field) pfx = some (specChildFieldDerived (pfx.getD "") ident))
  ∧ (∀ (pfx : Option String) (ident : String), childPfx ident none pfx = pfx)
  ∧ (∀ (i : String) (rn : Option String) (cv : Option SemConvert) (df : Bool) (ty : PrimSem)
        (rest : SemFields) (row : Row) (pfx : Option String),
        isAllNullFields (.cons (.plainF i rn cv df ty) rest) row pfx =
          (match getRef row (specLookupKey (pfx.getD "") rn i) with
           | .error e => .error e
           | .ok .null => isAllNullFields rest row pfx
           | .ok _ => .ok false))
  ∧ (∀ (i : String) (rn : Option String) (df : Bool) (ty : PrimSem)
        (row : Row) (pfx : Option String),
        decodeField (.plainF i rn none df ty) row pfx =
          (match plainRead ty (specLookupKey (pfx.getD "") rn i) df row with
           | .error e => .error e
           | .ok v => .ok (.vprim v)))
  ∧ (∀ (i : String) (pd : Option PfxDir) (nested : SemFields) (row : Row) (pfx : Option String),
        decodeField (.flattenF i pd none nested) row pfx =
          tryFromRowStruct nested row (childPfx i pd pfx)) := by
  refine ⟨resolvedKey_eq_spec, fun _ _ _ => rfl, fun _ _ => rfl, fun _ _ => rfl, ?_, ?_, ?_⟩
  · intro i rn cv df ty rest row pfx
    rw [← resolvedKey_eq_spec]
    rfl
  · intro i rn df ty row pfx
    rw [← resolvedKey_eq_spec]
    simp only [decodeField, plainDecode, targetPrim]
    rcases h : plainRead ty (resolvedKey pfx rn i) df row with e | v <;> simp [h]
  · intro i pd nested row pfx
    rfl

/-- Claim C2: a Plain field carrying `default` reads the raw value of its
resolved column: an absent column fails with `MissingColumn` even under
`default` (absence is never conflated with null), the null sentinel yields
the target type's default, and a non-null value is decoded via
`FromSql::column_result`. -/
theorem claim_C2_plain_default_semantics (t : PrimSem) (c : String) (row : Row) :
    (c ∉ row.map Prod.fst → plainRead t c true row = .error (.missingColumn c))
  ∧ (getRef row c = .ok .null → plainRead t c true row = .ok t.dfltVal)
  ∧ (∀ v, getRef row c = .ok v → v ≠ .null → plainRead t c true row = columnResult t c v)
  ∧ (∀ (i : String) (rn : Option String) (df : Bool) (ty : PrimSem)
        (row' : Row) (pfx : Option String),
        decodeField (.plainF i rn none df ty) row' pfx =
          (match plainRead ty (resolvedKey pfx rn i) df row' with
           | .error e => .error e
           | .ok v => .ok (.vprim v))) := by
  refine ⟨?_, ?_, ?_, ?_⟩
  · intro h
    simp [plainRead, getRef_not_mem row c h]
  · intro h
    simp [plainRead, h]
  · intro v hv hne
    cases v with
    | null => exact absurd rfl hne
    | integer j => simp [plainRead, hv]
    | text s => simp [plainRead, hv]
  · intro i rn df ty row' pfx
    simp only [decodeField, plainDecode, targetPrim]
    rcases h : plainRead ty (resolvedKey pfx rn i) df row' with e | v <;> simp [h]

/-- Witness for C2 at concrete inputs: null column yields the target's
default, non-null decodes the value, absent column fails with
`MissingColumn` despite `default`. -/
theorem claim_C2_witness :
    plainRead ⟨false, .integer 7⟩ "views" true [("views", .null)] = .ok (.integer 7)
  ∧ plainRead ⟨false, .integer 7⟩ "views" true [("views", .integer 3)] = .ok (.integer 3)
  ∧ plainRead ⟨false, .integer 7⟩ "views" true [("id", .integer 1)]
      = .error (.missingColumn "views") := by
  refine ⟨?_, ?_, ?_⟩
  · exact (claim_C2_plain_default_semantics ⟨false, .integer 7⟩ "views"
      [("views", .null)]).2.1 (by rfl)
  · exact ((claim_C2_plain_default_semantics ⟨false, .integer 7⟩ "views"
      [("views", .integer 3)]).2.2.1 (.integer 3) (by rfl) (by decide)).trans (by rfl)
  · exact (claim_C2_plain_default_semantics ⟨false, .integer 7⟩ "views"
      [("id", .integer 1)]).1 (by decide)

/-- Claim C6, evaluated at the failing input: for the Plain field
`value: String` with `#[from_row(from = "i64")]`, the Constraint
Collector emits `i64: FromSql` followed by `i64: From<i64>` — the
conversion's intermediate type on *both* sides of the `From` bound
(lib.rs 183-184 rebinds `target_ty`) — and not the `String: From<i64>`
bound promised by the claim and by the doc comment at lib.rs 158-164. -/
theorem claim_C6_from_predicate_eval :
    FromRowField.addPredicates ⟨"value", "String", .fieldA none (some (.cFrom "i64")) false⟩ =
      [.fromSqlP "i64", .fromP "i64" "i64"]
  ∧ WherePred.fromP "String" "i64" ∉
      FromRowField.addPredicates ⟨"value", "String", .fieldA none (some (.cFrom "i64")) false⟩ := by
  exact ⟨rfl, by decide⟩

/-- Claim C3: the whole-struct probe is the left-to-right short-circuiting
conjunction of the per-field probes of the non-`skip` fields; and it is a
strict conjunction: on a row where it holds, flipping any single probed
column from null to non-null flips the result from `Ok(true)` to
`Ok(false)`, all else held constant. -/
theorem claim_C3_probe_conjunction_and_strictness :
    (∀ (fs : SemFields) (row : Row) (pfx : Option String),
        isAllNullFields fs row pfx = probeChain (probeList fs row pfx))
  ∧ (∀ (fs : SemFields) (row : Row) (pfx : Option String) (c : String) (v : SqlValue),
        isAllNullFields fs row pfx = .ok true →
        c ∈ probedCols fs pfx →
        v ≠ .null →
        isAllNullFields fs (setCol row c v) pfx = .ok false) := by
  refine ⟨isAllNull_eq_probeChain, ?_⟩
  intro fs row pfx c v htrue hc hv
  have hall : ∀ c' ∈ probedCols fs pfx, getRef row c' = .ok .null :=
    (isAllNull_ok_true_iff fs row pfx).mp htrue
  have hcnull : getRef row c = .ok .null := hall c hc
  have hcnew : getRef (setCol row c v) c = .ok v :=
    getRef_setCol_self row c v .null hcnull
  have hok : ∀ c' ∈ probedCols fs pfx, ∃ w, getRef (setCol row c v) c' = .ok w := by
    intro c' hc'
    by_cases hcc : c' = c
    · subst hcc
      exact ⟨v, hcnew⟩
    · rw [getRef_setCol_other row c c' v hcc]
      exact ⟨.null, hall c' hc'⟩
  obtain ⟨b, hb⟩ := isAllNull_isOk fs (setCol row c v) pfx hok
  cases b with
  | true =>
      have := (isAllNull_ok_true_iff fs (setCol row c v) pfx).mp hb c hc
      rw [hcnew] at this
      exact absurd (Except.ok.inj this) hv
  | false => exact hb

/-- Witness for C3: a `flatten`ed one-to-one relation under the prefix
`author_`; both backing columns null makes the probe true, flipping one to
a non-null integer makes it false. -/
theorem claim_C3_witness :
    isAllNullFields
        (.cons (.flattenF "author" (some (.value "author_")) none
          (.cons (.plainF "id" none none false ⟨false, .null⟩)
            (.cons (.plainF "name" none none false ⟨false, .null⟩) .nil))) .nil)
        [("author_id", .null), ("author_name", .null)] none = .ok true
  ∧ isAllNullFields
        (.cons (.flattenF "author" (some (.value "author_")) none
          (.cons (.plainF "id" none none false ⟨false, .null⟩)
            (.cons (.plainF "name" none none false ⟨false, .null⟩) .nil))) .nil)
        (setCol [("author_id", .null), ("author_name", .null)] "author_id" (.integer 7))
        none = .ok false := by
  refine ⟨rfl, ?_⟩
  exact claim_C3_probe_conjunction_and_strictness.2 _
    [("author_id", .null), ("author_name", .null)] none "author_id" (.integer 7)
    rfl (by decide) (by decide)

/-- Claim C4: a Flatten field carrying `default` decodes by first invoking
the nested type's optional decode (probe, then decode-or-absent) and
substituting the declared type's default on absent; in particular, when
every column backing the nested struct is null, the field is set to the
declared type's default value with no error. -/
theorem claim_C4_flatten_default (i : String) (pd : Option PfxDir) (dv : FieldValue)
    (nested : SemFields) (row : Row) (pfx : Option String) :
    (decodeField (.flattenF i pd (some dv) nested) row pfx =
       (match optionTryFromRow nested row (childPfx i pd pfx) with
        | .error e => .error e
        | .ok (some v) => .ok v
        | .ok none => .ok dv))
  ∧ ((∀ c ∈ probedCols nested (childPfx i pd pfx), getRef row c = .ok .null) →
       decodeField (.flattenF i pd (some dv) nested) row pfx = .ok dv) := by
  refine ⟨decodeField_flatten_default_eq i pd dv nested row pfx, ?_⟩
  intro hnull
  have hp : isAllNullFields nested row (childPfx i pd pfx) = .ok true :=
    (isAllNull_ok_true_iff nested row (childPfx i pd pfx)).mpr hnull
  simp [decodeField, hp]

/-- Witness for C4: the `status` field of the integration test — flatten
with `default`, backing column null — decodes to the declared type's
default with no error. -/
theorem claim_C4_witness :
    decodeField
      (.flattenF "status" none
        (some (.vstrukt [("is_done", .vprim (.integer 0))]))
        (.cons (.plainF "is_done" none none false ⟨false, .integer 0⟩) .nil))
      [("is_done", .null)] none = .ok (.vstrukt [("is_done", .vprim (.integer 0))]) := by
  refine (claim_C4_flatten_default "status" none
      (.vstrukt [("is_done", .vprim (.integer 0))])
      (.cons (.plainF "is_done" none none false ⟨false, .integer 0⟩) .nil)
      [("is_done", .null)] none).2 ?_
  intro c hc
  have hcc : c = resolvedKey (childPfx "status" none none) none "is_done" := by
    simpa [probedCols] using hc
  subst hcc
  rfl

/-- Counterexample to Claim C5 as stated: a Flatten field without
`default` whose nested struct contains a non-nullable Plain field — but
one that itself carries the `default` directive.  With its backing column
null, decode succeeds (the Plain `default` path substitutes the target's
default), so the claim's promised `NullOnNonNullable` failure does not
occur. -/
theorem claim_C5_counterexample :
    (∀ c ∈ probedCols (.cons (.plainF "x" none none true ⟨false, .integer 0⟩) .nil)
        (childPfx "author" none none),
      getRef [("x", SqlValue.null)] c = .ok .null)
  ∧ decodeField
      (.flattenF "author" none none
        (.cons (.plainF "x" none none true ⟨false, .integer 0⟩) .nil))
      [("x", .null)] none = .ok (.vstrukt [("x", .vprim (.integer 0))])
  ∧ ∀ c, decodeField
      (.flattenF "author" none none
        (.cons (.plainF "x" none none true ⟨false, .integer 0⟩) .nil))
      [("x", .null)] none ≠ .error (.nullOnNonNullable c) := by
  refine ⟨?_, rfl, ?_⟩
  · intro c hc
    have hcc : c = resolvedKey (childPfx "author" none none) none "x" := by
      simpa [probedCols] using hc
    subst hcc
    rfl
  · intro c h
    rw [show decodeField
        (.flattenF "author" none none
          (.cons (.plainF "x" none none true ⟨false, .integer 0⟩) .nil))
        [("x", .null)] none = .ok (.vstrukt [("x", .vprim (.integer 0))]) from rfl] at h
    cases h

/-- Claim C5 (amended): for every Flatten field without `default` whose
nested struct — over all fields reachable transitively through
`flatten`-without-`default` sub-structs — carries no `try_from`
conversion and contains a Plain field with non-nullable target type that
does not carry the `default` directive, decoding on a row where every
backing column is null fails with `NullOnNonNullable` at some column — it
never silently substitutes a default. -/
theorem claim_C5_flatten_all_null_fails (i : String) (pd : Option PfxDir)
    (nested : SemFields) (row : Row) (pfx : Option String)
    (hshape : noTryFromReach nested = true)
    (hstrict : hasStrictReach nested = true)
    (hnull : ∀ c ∈ probedCols nested (childPfx i pd pfx), getRef row c = .ok .null) :
    ∃ c, decodeField (.flattenF i pd none nested) row pfx =
      .error (.nullOnNonNullable c) := by
  obtain ⟨c, hc⟩ := decodeFields_all_null_strict nested row (childPfx i pd pfx)
    hshape hstrict hnull
  exact ⟨c, by simp [decodeField, hc]⟩

/-- Witness for the amended C5: `author` flattened under `author_`, whose
nested struct itself flattens a `role` sub-struct under `role_` — the only
strict field, `kind`, sits inside the nested Flatten — with all backing
columns null, decode fails with `NullOnNonNullable`. -/
theorem claim_C5_witness :
    ∃ c, decodeField
      (.flattenF "author" (some (.value "author_")) none
        (.cons (.plainF "id" none none true ⟨false, .integer 0⟩)
          (.cons (.flattenF "role" (some (.value "role_")) none
            (.cons (.plainF "kind" none none false ⟨false, .text ""⟩) .nil)) .nil)))
      [("author_id", .null), ("author_role_kind", .null)] none =
        .error (.nullOnNonNullable c) := by
  refine claim_C5_flatten_all_null_fails "author" (some (.value "author_"))
    (.cons (.plainF "id" none none true ⟨false, .integer 0⟩)
      (.cons (.flattenF "role" (some (.value "role_")) none
        (.cons (.plainF "kind" none none false ⟨false, .text ""⟩) .nil)) .nil))
    [("author_id", .null), ("author_role_kind", .null)] none rfl rfl ?_
  intro c hc
  have hcc : c = resolvedKey (childPfx "author" (some (.value "author_")) none) none "id"
      ∨ c = resolvedKey (childPfx "role" (some (.value "role_"))
          (childPfx "author" (some (.value "author_")) none)) none "kind" := by
    simpa [probedCols] using hc
  rcases hcc with hcc | hcc <;> subst hcc <;> rfl

/-- Claim C7: directive parsing rejects every invalid combination with a
fatal error before any decoder is produced: `skip` with any other key
(including `default`), `flatten` with `rename`/`from`/`try_from`/
`from_fn`, `prefix` without `flatten`, and more than one of
`from`/`try_from`/`from_fn`; and a failing field aborts the whole-struct
parse, so generation never runs. -/
theorem claim_C7_directive_validation (r : RawAttrs) :
    (r.skip = true →
      (r.flatten || r.default || r.pfxd.isSome || r.tryFrom.isSome
        || r.fromFn.isSome || r.fromTy.isSome || r.rename.isSome) = true →
      FromRowAttrs.parse r = .error .skipCombined)
  ∧ (r.skip = false → r.flatten = true →
      (r.rename.isSome || r.fromTy.isSome || r.tryFrom.isSome || r.fromFn.isSome) = true →
      FromRowAttrs.parse r = .error .flattenCombined)
  ∧ (r.skip = false → r.flatten = false → r.pfxd.isSome = true →
      FromRowAttrs.parse r = .error .pfxWithoutFlatten)
  ∧ ((r.tryFrom.isSome && r.fromTy.isSome || r.tryFrom.isSome && r.fromFn.isSome
        || r.fromTy.isSome && r.fromFn.isSome) = true →
      ∃ e, FromRowAttrs.parse r = .error e)
  ∧ (∀ (fields : List (String × RustTy × RawAttrs)) (e : ParseErr),
      (∃ p ∈ fields, FromRowAttrs.parse p.2.2 = .error e) →
      ∃ e', parseFields fields = .error e') := by
  obtain ⟨fl, pf, tf, fr, fn, rn, sk, df⟩ := r
  refine ⟨?_, ?_, ?_, ?_, ?_⟩
  · intro hs ho
    simp only at hs ho
    simp [FromRowAttrs.parse, hs, ho]
  · intro hs hf ho
    simp only at hs hf ho
    simp [FromRowAttrs.parse, hs, hf, ho]
  · intro hs hf hp
    simp only at hs hf hp
    simp [FromRowAttrs.parse, hs, hf, hp]
  · intro h
    simp only at h
    cases sk
    · cases fl
      · rcases hp : pf with _ | p
        · subst hp
          rcases htf : tf with _ | t <;> rcases hfr : fr with _ | f <;>
            rcases hfn : fn with _ | g <;> subst htf <;> subst hfr <;> subst hfn <;>
            simp_all [FromRowAttrs.parse]
        · subst hp
          exact ⟨.pfxWithoutFlatten, by simp [FromRowAttrs.parse]⟩
      · refine ⟨.flattenCombined, ?_⟩
        have ho : (rn.isSome || fr.isSome || tf.isSome || fn.isSome) = true := by
          rcases Bool.or_eq_true_iff.mp h with h' | h'
          · rcases Bool.or_eq_true_iff.mp h' with h'' | h''
            · obtain ⟨h1, h2⟩ := Bool.and_eq_true_iff.mp h''
              simp [h2]
            · obtain ⟨h1, h2⟩ := Bool.and_eq_true_iff.mp h''
              simp [h1]
          · obtain ⟨h1, h2⟩ := Bool.and_eq_true_iff.mp h'
            simp [h1]
        simp [FromRowAttrs.parse, ho]
    · refine ⟨.skipCombined, ?_⟩
      have ho : (fl || df || pf.isSome || tf.isSome || fn.isSome || fr.isSome
          || rn.isSome) = true := by
        rcases Bool.or_eq_true_iff.mp h with h' | h'
        · rcases Bool.or_eq_true_iff.mp h' with h'' | h''
          · obtain ⟨h1, h2⟩ := Bool.and_eq_true_iff.mp h''
            simp [h1]
          · obtain ⟨h1, h2⟩ := Bool.and_eq_true_iff.mp h''
            simp [h1]
        · obtain ⟨h1, h2⟩ := Bool.and_eq_true_iff.mp h'
          simp [h1]
      simp [FromRowAttrs.parse, ho]
  · intro fields e hmem
    induction fields with
    | nil =>
        obtain ⟨q, hq, _⟩ := hmem
        exact absurd hq (List.not_mem_nil q)
    | cons p rest ih =>
        obtain ⟨q, hq, he⟩ := hmem
        obtain ⟨a, b, c⟩ := p
        rcases List.mem_cons.mp hq with h1 | h1
        · subst h1
          exact ⟨e, by simp [parseFields, he]⟩
        · rcases hp : FromRowAttrs.parse c with e2 | a2
          · exact ⟨e2, by simp [parseFields, hp]⟩
          · obtain ⟨e', he'⟩ := ih ⟨q, h1, he⟩
            exact ⟨e', by simp [parseFields, hp, he']⟩

/-- Witness for C7: a field marked both `skip` and `rename = "x"` fails
parsing with the skip-conflict error, and so does the whole-struct parse
containing it — generation never silently picks one directive. -/
theorem claim_C7_witness :
    FromRowAttrs.parse ⟨false, none, none, none, none, some "x", true, false⟩ =
      .error .skipCombined
  ∧ ∃ e', parseFields [("empty", "PhantomData", ⟨false, none, none, none, none, some "x", true, false⟩)] = .error e' := by
  constructor
  · exact (claim_C7_directive_validation
      ⟨false, none, none, none, none, some "x", true, false⟩).1 rfl rfl
  · exact (claim_C7_directive_validation
      ⟨false, none, none, none, none, some "x", true, false⟩).2.2.2.2
      [("empty", "PhantomData", ⟨false, none, none, none, none, some "x", true, false⟩)]
      .skipCombined
      ⟨("empty", "PhantomData", ⟨false, none, none, none, none, some "x", true, false⟩),
        List.mem_singleton.mpr rfl, rfl⟩

/-- Claim C8: a Skip field decodes to its declared type's default with no
row access — the same value on every row — and contributes neither a
probe conjunct nor a probed column; consequently removing from the row
any column the struct never probes (in particular a Skip field's would-be
backing column) changes neither the outcome of decode nor of the probe. -/
theorem claim_C8_skip_no_row_access :
    (∀ (i : String) (d : FieldValue) (row : Row) (pfx : Option String),
        decodeField (.skipF i d) row pfx = .ok d)
  ∧ (∀ (i : String) (d : FieldValue) (row row' : Row) (pfx : Option String),
        decodeField (.skipF i d) row pfx = decodeField (.skipF i d) row' pfx)
  ∧ (∀ (i : String) (d : FieldValue) (rest : SemFields) (row : Row) (pfx : Option String),
        isAllNullFields (.cons (.skipF i d) rest) row pfx = isAllNullFields rest row pfx
        ∧ fieldProbe (.skipF i d) row pfx = none
        ∧ probedCols (.cons (.skipF i d) rest) pfx = probedCols rest pfx)
  ∧ (∀ (fs : SemFields) (row : Row) (pfx : Option String) (c : String),
        c ∉ probedCols fs pfx →
        decodeFields fs (removeCol row c) pfx = decodeFields fs row pfx
        ∧ isAllNullFields fs (removeCol row c) pfx = isAllNullFields fs row pfx) := by
  refine ⟨fun _ _ _ _ => rfl, fun _ _ _ _ _ => rfl,
    fun _ _ _ _ _ => ⟨rfl, rfl, rfl⟩, ?_⟩
  intro fs row pfx c hc
  have hagree : ∀ c' ∈ probedCols fs pfx, getRef (removeCol row c) c' = getRef row c' := by
    intro c' hc'
    exact getRef_removeCol_other row c c' (fun hccc => hc (hccc ▸ hc'))
  exact ⟨decodeFields_frame fs (removeCol row c) row pfx hagree,
    isAllNull_frame fs (removeCol row c) row pfx hagree⟩

/-- Witness for C8: a struct with a Plain `id` and a Skip `empty` field —
removing the `empty` column from the row leaves decode and probe
untouched. -/
theorem claim_C8_witness :
    decodeFields
        (.cons (.plainF "id" none none false ⟨false, .null⟩)
          (.cons (.skipF "empty" (.vprim .null)) .nil))
        (removeCol [("id", .integer 1), ("empty", .text "zzz")] "empty") none =
      decodeFields
        (.cons (.plainF "id" none none false ⟨false, .null⟩)
          (.cons (.skipF "empty" (.vprim .null)) .nil))
        [("id", .integer 1), ("empty", .text "zzz")] none := by
  exact (claim_C8_skip_no_row_access.2.2.2
    (.cons (.plainF "id" none none false ⟨false, .null⟩)
      (.cons (.skipF "empty" (.vprim .null)) .nil))
    [("id", .integer 1), ("empty", .text "zzz")] none "empty" (by decide)).1

/-- Claim C9: the generated decode and probe are pure functions of
(row, prefix): repeated invocation on the same arguments yields the same
result, and the result depends on nothing beyond what the row accessor
answers for each column — two rows indistinguishable through `get_ref`
yield identical decode and probe results, with no hidden state or
caching. -/
theorem claim_C9_purity (fs : SemFields) (row row' : Row) (pfx : Option String)
    (h : ∀ c, getRef row c = getRef row' c) :
    tryFromRowStruct fs row pfx = tryFromRowStruct fs row pfx
  ∧ isAllNullFields fs row pfx = isAllNullFields fs row pfx
  ∧ tryFromRowStruct fs row pfx = tryFromRowStruct fs row' pfx
  ∧ isAllNullFields fs row pfx = isAllNullFields fs row' pfx := by
  have hd := decodeFields_frame fs row row' pfx (fun c _ => h c)
  have hp := isAllNull_frame fs row row' pfx (fun c _ => h c)
  exact ⟨rfl, rfl, by simp only [tryFromRowStruct, hd], hp⟩

/-- Witness for C9: two physically different rows that answer every
`get_ref` question identically (the second carries a shadowed duplicate
column) give identical decode results. -/
theorem claim_C9_witness :
    tryFromRowStruct (.cons (.plainF "id" none none false ⟨false, .null⟩) .nil)
        [("id", .integer 1)] none =
      tryFromRowStruct (.cons (.plainF "id" none none false ⟨false, .null⟩) .nil)
        [("id", .integer 1), ("id", .integer 2)] none := by
  refine (claim_C9_purity (.cons (.plainF "id" none none false ⟨false, .null⟩) .nil)
    [("id", .integer 1)] [("id", .integer 1), ("id", .integer 2)] none ?_).2.2.1
  intro c
  by_cases hc : "id" = c
  · simp [getRef, hc]
  · simp [getRef, hc]

/-- Claim C10: the optional wrapper decodes to `Ok(None)` exactly when the
element type's probe answers `Ok(true)`; on `Ok(false)` it wraps the
element type's own decode in `Some`, propagating its failure; it
propagates probe failures; and its own probe is exactly the element
type's probe. -/
theorem claim_C10_option_wrapper (t : SemFields) (row : Row) (pfx : Option String) :
    optionIsAllNull t row pfx = isAllNullFields t row pfx
  ∧ (optionTryFromRow t row pfx = .ok none ↔ isAllNullFields t row pfx = .ok true)
  ∧ (isAllNullFields t row pfx = .ok false →
      optionTryFromRow t row pfx =
        (match tryFromRowStruct t row pfx with
         | .error e => .error e
         | .ok v => .ok (some v)))
  ∧ (∀ e, isAllNullFields t row pfx = .error e → optionTryFromRow t row pfx = .error e) := by
  refine ⟨rfl, ⟨?_, ?_⟩, ?_, ?_⟩
  · intro h
    rcases hp : isAllNullFields t row pfx with e | b
    · rw [optionTryFromRow, hp] at h
      cases h
    · cases b
      · rw [optionTryFromRow, hp] at h
        rcases hd : tryFromRowStruct t row pfx with e | v <;> rw [hd] at h <;> cases h
      · rfl
  · intro h
    simp [optionTryFromRow, h]
  · intro h
    simp [optionTryFromRow, h]
  · intro e h
    simp [optionTryFromRow, h]

/-- Witness for C10: a one-field element struct; an all-null row gives
`Ok(None)`, a non-null row gives `Ok(Some(decoded))`. -/
theorem claim_C10_witness :
    optionTryFromRow (.cons (.plainF "id" none none false ⟨false, .null⟩) .nil)
        [("id", .null)] none = .ok none
  ∧ optionTryFromRow (.cons (.plainF "id" none none false ⟨false, .null⟩) .nil)
        [("id", .integer 5)] none =
      .ok (some (.vstrukt [("id", .vprim (.integer 5))])) := by
  constructor
  · exact (claim_C10_option_wrapper
      (.cons (.plainF "id" none none false ⟨false, .null⟩) .nil)
      [("id", .null)] none).2.1.mpr rfl
  · exact ((claim_C10_option_wrapper
      (.cons (.plainF "id" none none false ⟨false, .null⟩) .nil)
      [("id", .integer 5)] none).2.2.1 rfl).trans rfl
